import Mathlib

/-!
Shallow embedding of the email-dev-tool slicing pipeline.

JavaScript numbers are modelled as `ℚ` (all arithmetic the pipeline performs
on them is exact on rationals); values that the source rounds with
`Math.round` become `ℤ` via Mathlib's `round` (both round halves toward +∞).
Byte buffers are abstracted to their lengths (`ℕ`), and the fallible external
steps (image codec, network upload) are parameters of type `... → Except String _`.
Fallible code paths return `Except String`.
-/

namespace EmailDevTool

/-- Models `clamp(n, min, max)` from `server.js` (and the identical helper in the
plugin code), instantiated at `ℚ`: `Math.max(min, Math.min(max, n))`. -/
def clampQ (n minv maxv : ℚ) : ℚ := max minv (min maxv n)

/-- Models `clamp(n, min, max)` instantiated at `ℤ` (the plugin applies it to
already-rounded integers). -/
def clampI (n minv maxv : ℤ) : ℤ := max minv (min maxv n)

/-- Models `px(val, scale)` from `server.js`:
`Math.max(0, Math.round(Number(val || 0) * scale))`. -/
def px (val scale : ℚ) : ℤ := max 0 (round (val * scale))

/-- Models `bytesToKb(bytes)` from `server.js`:
`Math.round((bytes / 1024) * 100) / 100`. -/
def bytesToKb (bytes : ℕ) : ℚ := (round ((bytes : ℚ) / 1024 * 100) : ℚ) / 100

/-- A pixel rectangle produced by `clampExtractRect` (the argument of
sharp's `.extract`). -/
structure ExtractRect where
  left : ℤ
  top : ℤ
  width : ℤ
  height : ℤ
  deriving DecidableEq, Repr

/-- A slice rectangle as built by the server (`buildAutoVerticalSlices` /
`normalizeManualRectSlices`): logical coordinates plus the pass-through
string fields. -/
structure ServerSlice where
  x : ℚ
  y : ℚ
  width : ℚ
  height : ℚ
  url : String
  label : String
  alt : String
  deriving DecidableEq, Repr

/-- Models `clampExtractRect(rect, pixelRatio, sourceWidth, sourceHeight)` from
`server.js` lines 195-206. -/
def clampExtractRect (rect : ServerSlice) (pixelRatio : ℚ)
    (sourceWidth sourceHeight : ℤ) : ExtractRect :=
  let left := clampI (px rect.x pixelRatio) 0 (max 0 (sourceWidth - 1))
  let top := clampI (px rect.y pixelRatio) 0 (max 0 (sourceHeight - 1))
  let desiredW := max 1 (px rect.width pixelRatio)
  let desiredH := max 1 (px rect.height pixelRatio)
  let width := clampI desiredW 1 (max 1 (sourceWidth - left))
  let height := clampI desiredH 1 (max 1 (sourceHeight - top))
  { left := left, top := top, width := width, height := height }

/-- Character class `[a-z0-9_-]` kept by `normalizeAccountId`. -/
def isAccountChar (c : Char) : Bool :=
  (('a' ≤ c) && (c ≤ 'z')) || (('0' ≤ c) && (c ≤ '9')) || (c == '_') || (c == '-')

/-- JavaScript `String.prototype.trim`, modelled on the character list:
drop whitespace from both ends. -/
def jsTrim (l : List Char) : List Char :=
  ((l.dropWhile Char.isWhitespace).reverse.dropWhile Char.isWhitespace).reverse

/-- Models `normalizeAccountId(raw)` from `server.js` lines 39-42:
`String(raw || '').trim().toLowerCase().replace(/[^a-z0-9_-]/g, '')`. -/
def normalizeAccountId (raw : String) : String :=
  String.mk (((jsTrim raw.toList).map Char.toLower).filter isAccountChar)

/-- One character step of `accountEnvKey`'s `replace(/[^A-Z0-9]/g, '_')`. -/
def envKeyChar (c : Char) : Char :=
  if (('A' ≤ c) && (c ≤ 'Z')) || (('0' ≤ c) && (c ≤ '9')) then c else '_'

/-- Models `accountEnvKey(accountId)` from `server.js` lines 52-56:
`` `KLAVIYO_API_KEY_${id.toUpperCase().replace(/[^A-Z0-9]/g, '_')}` ``. -/
def accountEnvKey (accountId : String) : String :=
  "KLAVIYO_API_KEY_" ++ String.mk ((accountId.toList.map Char.toUpper).map envKeyChar)

/-- The process environment: a partial map from variable names to values. -/
def Env : Type := String → Option String

/-- JavaScript truthiness of an environment read: an unset variable and an
empty-string variable both fail `if (key)` / `||` checks. -/
def envTruthy (env : Env) (name : String) : Option String :=
  match env name with
  | some s => if s = "" then none else some s
  | none => none

/-- Helper of `dedupFirst`: walk the list keeping the first occurrence of
each element, tracking what has been seen. -/
def dedupFirstAux (seen : List String) : List String → List String
  | [] => []
  | a :: rest =>
    if a ∈ seen then dedupFirstAux seen rest
    else a :: dedupFirstAux (a :: seen) rest

/-- First-occurrence deduplication, as performed by
`Array.from(new Set(...))` in `readConfiguredAccounts`. -/
def dedupFirst (l : List String) : List String := dedupFirstAux [] l

/-- Models `readConfiguredAccounts()` from `server.js` lines 44-50. -/
def readConfiguredAccounts (env : Env) : List String :=
  dedupFirst (((((env "KLAVIYO_ACCOUNTS").getD "").splitOn ",").map
    normalizeAccountId).filter (fun s => s ≠ ""))

/-- The success payload of `resolveApiKey`. -/
structure ResolvedKey where
  accountId : String
  apiKey : String
  source : String
  deriving DecidableEq, Repr

/-- Error message of `resolveApiKey` when a non-empty account id has no
configured key. -/
def missingAccountKeyMsg (accountId envName : String) : String :=
  s!"No API key configured for accountId \"{accountId}\". Expected env: {envName}"

/-- Error message of `resolveApiKey` when no key at all is configured. -/
def noKeyFoundMsg : String :=
  "No Klaviyo API key found. Configure KLAVIYO_API_KEY or KLAVIYO_API_KEY_<ACCOUNT_ID>."

/-- Models `resolveApiKey(accountIdRaw)` from `server.js` lines 58-87, with the
process environment passed explicitly. -/
def resolveApiKey (env : Env) (accountIdRaw : String) : Except String ResolvedKey :=
  let accountId := normalizeAccountId accountIdRaw
  let configured := readConfiguredAccounts env
  if accountId ≠ "" then
    let envName := accountEnvKey accountId
    match envTruthy env envName with
    | none => .error (missingAccountKeyMsg accountId envName)
    | some key => .ok ⟨accountId, key, envName⟩
  else
    match envTruthy env "KLAVIYO_API_KEY" with
    | some key => .ok ⟨"default", key, "KLAVIYO_API_KEY"⟩
    | none =>
      match envTruthy env "KLAVIYO_PRIVATE_KEY" with
      | some key => .ok ⟨"default", key, "KLAVIYO_PRIVATE_KEY"⟩
      | none =>
        match configured with
        | [] => .error noKeyFoundMsg
        | first :: _ =>
          match envTruthy env (accountEnvKey first) with
          | some key => .ok ⟨first, key, accountEnvKey first⟩
          | none => .error noKeyFoundMsg

/-- A concrete environment used by closed witnesses. -/
def demoEnv : Env := fun name =>
  if name = "KLAVIYO_API_KEY_ACMECORP" then some "sk-demo" else none

/-- Final state of the adaptive-quality search in `compressSlice`:
the quality last used, the encoded byte length, and how many times the
encoder was invoked. -/
structure CompressResult where
  quality : ℤ
  best : ℕ
  encodes : ℕ
  deriving DecidableEq, Repr

/-- Models the `while` loop of `compressSlice` (`server.js` lines 181-184):
`while (best.length > targetBytes && quality > minJpegQuality) { quality -= 5;
best = reencode(quality); }`. The encoder is abstracted to the byte length
`encSize quality` it produces. The loop always terminates because `quality`
strictly decreases; the first argument is a fuel bound on the remaining
iterations, kept structural so the function evaluates by kernel reduction
(callers pass a fuel that is provably never exhausted). -/
def compressLoop (encSize : ℤ → ℕ) (targetBytes : ℕ) (minQuality : ℤ) :
    ℕ → ℤ → ℕ → ℕ → CompressResult
  | 0, quality, best, encodes => ⟨quality, best, encodes⟩
  | fuel + 1, quality, best, encodes =>
    if targetBytes < best ∧ minQuality < quality then
      compressLoop encSize targetBytes minQuality fuel (quality - 5)
        (encSize (quality - 5)) (encodes + 1)
    else ⟨quality, best, encodes⟩

/-- Models the opaque (JPEG) path of `compressSlice` (`server.js` lines
177-184): encode once at the default quality, then run the quality-lowering
loop. -/
def compressSliceSearch (encSize : ℤ → ℕ) (targetBytes : ℕ)
    (minQuality defaultQuality : ℤ) : CompressResult :=
  compressLoop encSize targetBytes minQuality
    ((defaultQuality - minQuality).toNat + 1) defaultQuality (encSize defaultQuality) 1

/-- A concrete encoder-size function used by the C6 witness: encodes at
300000 bytes for qualities of at least 70, 200000 bytes below. -/
def demoEncSize : ℤ → ℕ := fun q => if 70 ≤ q then 300000 else 200000

/-- Result record of `compressSlice` (`server.js` lines 163-193). -/
structure CompressedSlice where
  bufLen : ℕ
  mime : String
  quality : Option ℤ
  originalKb : ℚ
  compressedKb : ℚ
  deriving DecidableEq, Repr

/-- Models `compressSlice(sliceBuffer, hasAlpha)` from `server.js` lines
163-193, with the two encoders abstracted to the byte lengths they produce
(`pngSize` for the lossless path, `jpegSize quality` for the lossy path). -/
def compressSlice (sliceLen : ℕ) (hasAlpha : Bool) (pngSize : ℕ)
    (jpegSize : ℤ → ℕ) (defaultJpegQuality minJpegQuality : ℤ)
    (targetSliceKb : ℕ) : CompressedSlice :=
  if hasAlpha then
    ⟨pngSize, "image/png", none, bytesToKb sliceLen, bytesToKb pngSize⟩
  else
    let r := compressSliceSearch jpegSize (targetSliceKb * 1024)
      minJpegQuality defaultJpegQuality
    ⟨r.best, "image/jpeg", some r.quality, bytesToKb sliceLen, bytesToKb r.best⟩

/-- Predicate behind `safeUrl`'s regex test `/^https?:\/\//i`: the string
starts, case-insensitively, with `http://` or `https://`. -/
def isHttpUrl (url : String) : Bool :=
  let l := url.toList.map Char.toLower
  List.isPrefixOf "http://".toList l || List.isPrefixOf "https://".toList l

/-- Models `safeUrl(url)` from `server.js` lines 23-25. -/
def safeUrl (url : String) : String := if isHttpUrl url then url else ""

/-- The `rect` field of a caller-supplied manual slice. -/
structure QRect where
  x : ℚ
  y : ℚ
  width : ℚ
  height : ℚ
  deriving DecidableEq, Repr

/-- A caller-supplied manual slice record; `rect` may be missing. A whole
entry may also be `null`/`undefined`, modelled by wrapping in `Option`. -/
structure ManualEntry where
  rect : Option QRect
  url : String
  label : String
  alt : String
  deriving DecidableEq, Repr

/-- Loop body of `normalizeManualRectSlices` (`server.js` lines 107-130) for
one entry: `continue` becomes `none`, `push` becomes `some`. -/
def normalizeManualEntry (logicalWidth bodyTop bodyBottom : ℚ) :
    Option ManualEntry → Option ServerSlice
  | none => none
  | some s =>
    match s.rect with
    | none => none
    | some r =>
      let x := clampQ ((round r.x : ℤ) : ℚ) 0 (max 0 (logicalWidth - 1))
      let y := clampQ ((round r.y : ℤ) : ℚ) bodyTop (max bodyTop (bodyBottom - 1))
      let maxW := logicalWidth - x
      let maxH := bodyBottom - y
      let w := clampQ ((round r.width : ℤ) : ℚ) 1 (max 1 maxW)
      let h := clampQ ((round r.height : ℤ) : ℚ) 1 (max 1 maxH)
      if w < 2 ∨ h < 2 then none
      else some ⟨x, y, w, h, safeUrl s.url, s.label, s.alt⟩

/-- Models `normalizeManualRectSlices(logicalWidth, logicalHeight, bodyTop,
bodyBottom, manualSlices)` from `server.js` lines 103-133 (`logicalHeight`
is accepted and unused, as in the source). -/
def normalizeManualRectSlices (logicalWidth logicalHeight bodyTop bodyBottom : ℚ)
    (manualSlices : List (Option ManualEntry)) : List ServerSlice :=
  manualSlices.filterMap (normalizeManualEntry logicalWidth bodyTop bodyBottom)

/-- Models the `while (y < bodyBottom)` loop of `buildAutoVerticalSlices`
(`server.js` lines 94-98). The first argument is a structural fuel bound on
the remaining iterations; callers pass a provably sufficient amount. The
`h ≤ 0` guard is unreachable for the `safeMax ≥ 200` the caller computes. -/
def autoSliceGo (logicalWidth : ℚ) (safeMax : ℤ) :
    ℕ → ℚ → ℚ → List ServerSlice
  | 0, _, _ => []
  | fuel + 1, y, bodyBottom =>
    if y < bodyBottom then
      let h := min (safeMax : ℚ) (bodyBottom - y)
      if h ≤ 0 then []
      else ⟨0, y, logicalWidth, h, "", "", ""⟩ ::
        autoSliceGo logicalWidth safeMax fuel (y + h) bodyBottom
    else []

/-- Models `buildAutoVerticalSlices(logicalWidth, bodyTop, bodyBottom,
maxSliceHeight)` from `server.js` lines 89-101. -/
def buildAutoVerticalSlices (logicalWidth bodyTop bodyBottom maxSliceHeight : ℚ) :
    List ServerSlice :=
  let safeMax := max 200 (round (if maxSliceHeight = 0 then (1200 : ℚ) else maxSliceHeight))
  autoSliceGo logicalWidth safeMax ((⌈bodyBottom - bodyTop⌉).toNat + 1) bodyTop bodyBottom

/-- Models `clamp(Math.round(headerHeight || 0), 0, logicalHeight)` from
`server.js` line 229. -/
def bodyTopOf (logicalHeight headerHeight : ℚ) : ℚ :=
  clampQ ((round headerHeight : ℤ) : ℚ) 0 logicalHeight

/-- Models `logicalHeight - clamp(Math.round(footerHeight || 0), 0,
logicalHeight)` from `server.js` line 230. -/
def bodyBottomOf (logicalHeight footerHeight : ℚ) : ℚ :=
  logicalHeight - clampQ ((round footerHeight : ℤ) : ℚ) 0 logicalHeight

/-- Error thrown when header+footer leave no body (`server.js` line 232). -/
def invalidBodyMsg : String := "Invalid header/footer crop. Body region is empty."

/-- Error thrown when all manual rectangles are dropped (`server.js` line 237). -/
def noValidManualMsg : String := "Manual slices provided but no valid rectangles were generated."

/-- Models the slice-construction stage of `buildAndUploadSlices`
(`server.js` lines 229-240): compute the body region, fail if it is empty or
inverted, then produce the manual or automatic slice list. The preceding
source-image metadata read (lines 220-227) is external I/O and not part of
this pure stage. -/
def slicePlan (logicalWidth logicalHeight headerHeight footerHeight maxSliceHeight : ℚ)
    (manualSlices : List (Option ManualEntry)) : Except String (List ServerSlice) :=
  let bodyTop := bodyTopOf logicalHeight headerHeight
  let bodyBottom := bodyBottomOf logicalHeight footerHeight
  if bodyBottom ≤ bodyTop then .error invalidBodyMsg
  else if manualSlices.length ≠ 0 then
    let slices := normalizeManualRectSlices logicalWidth logicalHeight bodyTop
      bodyBottom manualSlices
    if slices.length = 0 then .error noValidManualMsg
    else .ok slices
  else .ok (buildAutoVerticalSlices logicalWidth bodyTop bodyBottom maxSliceHeight)

/-- Metadata attached to a slice by the upload loop of
`buildAndUploadSlices` (`server.js` lines 258-262). -/
structure SliceMeta where
  imageUrl : String
  mimeType : String
  jpegQuality : Option ℤ
  originalKb : ℚ
  compressedKb : ℚ
  deriving DecidableEq, Repr

/-- Models the sequential `for` loop of `buildAndUploadSlices` (`server.js`
lines 242-263). `step i s` abstracts the fallible work for the slice at
0-based index `i`: rescaling plus pixel extraction, compression, and upload
(in the source these throw on failure, which aborts the loop — modelled by
`Except`). Processing is strictly sequential and the first failure aborts
the whole batch. -/
def processSlicesFrom (step : ℕ → ServerSlice → Except String SliceMeta) :
    ℕ → List ServerSlice → Except String (List (ServerSlice × SliceMeta))
  | _, [] => .ok []
  | i, s :: rest =>
    match step i s with
    | .error e => .error e
    | .ok meta =>
      match processSlicesFrom step (i + 1) rest with
      | .error e => .error e
      | .ok tail => .ok ((s, meta) :: tail)

/-- The whole upload loop, starting at the first slice. -/
def processSlices (step : ℕ → ServerSlice → Except String SliceMeta)
    (slices : List ServerSlice) : Except String (List (ServerSlice × SliceMeta)) :=
  processSlicesFrom step 0 slices

/-- Test used in C10: a manual-slice entry is considered by the normalizer
only when it is non-null and carries a `rect` field. -/
def entryHasRect : Option ManualEntry → Bool
  | none => false
  | some s => s.rect.isSome

/-- Re-wrap a normalizer output as a caller-supplied entry, for feeding a
normalized rectangle through the normalizer a second time (C7). -/
def rewrapSlice (s : ServerSlice) : Option ManualEntry :=
  some ⟨some ⟨s.x, s.y, s.width, s.height⟩, s.url, s.label, s.alt⟩

/-- Concrete slice metadata used by the C4 witness. -/
def demoMeta : SliceMeta := ⟨"https://img.example/1", "image/jpeg", some 80, 10, 5⟩

/-- Concrete per-slice step used by the C4 witness: the first slice succeeds,
every later slice fails its upload. -/
def demoStep : ℕ → ServerSlice → Except String SliceMeta :=
  fun i _ => if i = 0 then .ok demoMeta else .error "Image upload failed: boom"

/-- Concrete slice used by the C4 witness. -/
def demoSlice : ServerSlice := ⟨0, 0, 100, 100, "", "", ""⟩

/-- A vertical interval `{start, end}` used by the plugin's suggester (the
`end` field is named `stop` because `end` is reserved in Lean). -/
structure Ival where
  start : ℤ
  stop : ℤ
  deriving DecidableEq, Repr

instance : IsTotal Ival (fun a b => a.start ≤ b.start) :=
  ⟨fun a b => le_total a.start b.start⟩

instance : IsTrans Ival (fun a b => a.start ≤ b.start) :=
  ⟨fun _ _ _ hab hbc => le_trans hab hbc⟩

/-- Models `toInt(n, fallback)` from the plugin code: `Number(n)` rounded
when finite, else the fallback. `none` stands for a missing/non-numeric
option. -/
def toInt (n : Option ℚ) (fallback : ℤ) : ℤ :=
  match n with
  | some q => round q
  | none => fallback

/-- Models `splitByMaxHeight`'s `while (y < interval.end)` loop (plugin code)
and the identical fallback tiling loop at the end of `suggestSlices`. The
first argument is a structural fuel bound on the remaining iterations
(callers pass a provably sufficient amount); the `h ≤ 0` guard is
unreachable for the `maxH ≥ 200` the callers use. -/
def tileGoI (maxH : ℤ) : ℕ → ℤ → ℤ → List Ival
  | 0, _, _ => []
  | fuel + 1, y, stop =>
    if y < stop then
      let h := min maxH (stop - y)
      if h ≤ 0 then []
      else ⟨y, y + h⟩ :: tileGoI maxH fuel (y + h) stop
    else []

/-- Models `splitByMaxHeight(interval, maxH)` from the plugin code. -/
def splitByMaxHeight (interval : Ival) (maxH : ℤ) : List Ival :=
  tileGoI maxH (interval.stop - interval.start).toNat interval.start interval.stop

/-- Accumulator step of `mergeIntervals` (plugin code): `cur` plays the role
of `merged[merged.length - 1]`, extended in place or pushed. -/
def mergeAux (joinGap : ℤ) : Ival → List Ival → List Ival
  | cur, [] => [cur]
  | cur, i :: rest =>
    if i.start ≤ cur.stop + joinGap then
      mergeAux joinGap ⟨cur.start, max cur.stop i.stop⟩ rest
    else
      cur :: mergeAux joinGap i rest

/-- Models `mergeIntervals(intervals, joinGap)` from the plugin code:
sort ascending by `start` (the JS comparator `a.start - b.start`), then
linearly merge intervals whose gap is at most `joinGap`. -/
def mergeIntervals (intervals : List Ival) (joinGap : ℤ) : List Ival :=
  match List.insertionSort (fun a b => a.start ≤ b.start) intervals with
  | [] => []
  | first :: rest => mergeAux joinGap first rest

/-- Bounding box of a frame child, relative coordinates as the plugin reads
them (`absoluteBoundingBox`). -/
structure ChildBox where
  y : ℚ
  width : ℚ
  height : ℚ
  deriving DecidableEq, Repr

/-- A direct child of the frame: visibility flag plus an optional bounding
box (`getBounds` returns `null` for nodes without one). -/
structure FigmaChild where
  visible : Bool
  bounds : Option ChildBox
  deriving DecidableEq, Repr

/-- The selected frame node as `suggestSlices` reads it: the y coordinate of
its `absoluteBoundingBox` (if any), its logical size, and its direct
children. -/
structure FrameNode where
  boundsY : Option ℚ
  width : ℚ
  height : ℚ
  children : List FigmaChild
  deriving DecidableEq, Repr

/-- Options passed to `suggestSlices`; `none` models a missing or
non-numeric value. -/
structure SuggestOpts where
  headerHeight : Option ℚ
  footerHeight : Option ℚ
  maxSliceHeight : Option ℚ
  deriving DecidableEq, Repr

/-- An integer rectangle proposed by the suggester. -/
structure SliceRect where
  x : ℤ
  y : ℤ
  width : ℤ
  height : ℤ
  deriving DecidableEq, Repr

/-- A suggested slice: rectangle plus the empty pass-through fields. -/
structure SuggestSlice where
  rect : SliceRect
  url : String
  alt : String
  label : String
  deriving DecidableEq, Repr

/-- Body top as `suggestSlices` computes it:
`clamp(toInt(opts.headerHeight, 0), 0, frameHeight)`. -/
def suggestBodyTop (frameHeight : ℤ) (opts : SuggestOpts) : ℤ :=
  clampI (toInt opts.headerHeight 0) 0 frameHeight

/-- Body bottom as `suggestSlices` computes it:
`frameHeight - clamp(toInt(opts.footerHeight, 0), 0, frameHeight)`. -/
def suggestBodyBottom (frameHeight : ℤ) (opts : SuggestOpts) : ℤ :=
  frameHeight - clampI (toInt opts.footerHeight 0) 0 frameHeight

/-- Per-child interval extraction from the `for` loop of `suggestSlices`
(plugin code): skip invisible children, children without bounds, children
too narrow or too short, and spans too short after clamping into the body. -/
def childInterval (frameBoundsY : ℚ) (bodyTop bodyBottom minSectionHeight minWidth : ℤ)
    (child : FigmaChild) : Option Ival :=
  if child.visible = false then none
  else
    match child.bounds with
    | none => none
    | some b =>
      let relY := round (b.y - frameBoundsY)
      let relH := round b.height
      let relW := round b.width
      if relW < minWidth then none
      else if relH < minSectionHeight then none
      else
        let start := clampI relY bodyTop bodyBottom
        let stop := clampI (relY + relH) bodyTop bodyBottom
        if stop - start < minSectionHeight then none
        else some ⟨start, stop⟩

/-- Lines 174-203 of the plugin's `suggestSlices`: merge the collected
intervals, split each merged interval by the maximum slice height, convert
chunks of at least 8px to rectangles, and fall back to a plain tiling of the
body when nothing survived. -/
def assembleSlices (frameWidth bodyTop bodyBottom maxSliceHeight joinGap : ℤ)
    (intervals : List Ival) : List SuggestSlice :=
  let merged := mergeIntervals intervals joinGap
  let slices := merged.flatMap (fun m =>
    (splitByMaxHeight m maxSliceHeight).filterMap (fun c =>
      if c.stop - c.start < 8 then none
      else some ⟨⟨0, c.start, frameWidth, c.stop - c.start⟩, "", "", ""⟩))
  if slices.isEmpty then
    (tileGoI maxSliceHeight (bodyBottom - bodyTop).toNat bodyTop bodyBottom).map
      (fun c => ⟨⟨0, c.start, frameWidth, c.stop - c.start⟩, "", "", ""⟩)
  else slices

/-- Models `suggestSlices(frameNode, opts)` from the plugin code: collect
qualifying child spans (or the whole body when none qualify), merge them,
split by the maximum slice height, drop sub-8px chunks, and fall back to a
plain tiling of the body when nothing survived. -/
def suggestSlices (frameNode : FrameNode) (opts : SuggestOpts) : List SuggestSlice :=
  match frameNode.boundsY with
  | none => []
  | some frameBoundsY =>
    let frameWidth := round frameNode.width
    let frameHeight := round frameNode.height
    let maxSliceHeight := max 200 (toInt opts.maxSliceHeight 1200)
    let bodyTop := suggestBodyTop frameHeight opts
    let bodyBottom := suggestBodyBottom frameHeight opts
    if bodyBottom ≤ bodyTop then []
    else
      let minSectionHeight := max 40 (round ((frameHeight : ℚ) * (3 / 100)))
      let minWidth := max 120 (round ((frameWidth : ℚ) * (55 / 100)))
      let joinGap := max 12 (round ((frameHeight : ℚ) * (1 / 100)))
      let intervals := frameNode.children.filterMap
        (childInterval frameBoundsY bodyTop bodyBottom minSectionHeight minWidth)
      let intervals := if intervals.isEmpty then [⟨bodyTop, bodyBottom⟩] else intervals
      assembleSlices frameWidth bodyTop bodyBottom maxSliceHeight joinGap intervals

/-- A childless 1000x1000 frame used by the C1 witness. -/
def demoFrame : FrameNode := ⟨some 0, 1000, 1000, []⟩

/-- Suggestion options with every field missing (all defaults). -/
def demoOpts : SuggestOpts := ⟨none, none, none⟩

/-- A 1000x1000 frame with one qualifying child spanning rows 200-500, used
by the C1 counterexample. -/
def demoChildFrame : FrameNode := ⟨some 0, 1000, 1000, [⟨true, some ⟨200, 600, 300⟩⟩]⟩

lemma clampI_le_right {n lo hi : ℤ} (h : lo ≤ hi) : clampI n lo hi ≤ hi := by
  simp only [clampI]
  omega

lemma le_clampI_left (n lo hi : ℤ) : lo ≤ clampI n lo hi := by
  simp only [clampI]
  omega

/-- **C5**: for every scale factor ≥ 1, every logical rectangle fully inside
the logical frame, and every source image with positive pixel dimensions, the
rescaled extraction rectangle lies entirely within the source image:
`left ≥ 0`, `top ≥ 0`, `left + width ≤ sourceWidth`,
`top + height ≤ sourceHeight`. -/
theorem clampExtractRect_within_source (rect : ServerSlice) (pixelRatio : ℚ)
    (sourceWidth sourceHeight : ℤ) (logicalWidth logicalHeight : ℚ)
    (_hpr : 1 ≤ pixelRatio)
    (_hx : 0 ≤ rect.x) (_hy : 0 ≤ rect.y)
    (_hw : rect.x + rect.width ≤ logicalWidth)
    (_hh : rect.y + rect.height ≤ logicalHeight)
    (hW : 1 ≤ sourceWidth) (hH : 1 ≤ sourceHeight) :
    0 ≤ (clampExtractRect rect pixelRatio sourceWidth sourceHeight).left ∧
    0 ≤ (clampExtractRect rect pixelRatio sourceWidth sourceHeight).top ∧
    (clampExtractRect rect pixelRatio sourceWidth sourceHeight).left +
      (clampExtractRect rect pixelRatio sourceWidth sourceHeight).width ≤ sourceWidth ∧
    (clampExtractRect rect pixelRatio sourceWidth sourceHeight).top +
      (clampExtractRect rect pixelRatio sourceWidth sourceHeight).height ≤ sourceHeight := by
  simp only [clampExtractRect, clampI]
  omega

/-- Witness for C5 at a concrete input. -/
theorem clampExtractRect_within_source_witness :
    (1 : ℚ) ≤ 2 ∧ (0 : ℚ) ≤ 3 ∧ (0 : ℚ) ≤ 5 ∧ (3 : ℚ) + 10 ≤ 20 ∧ (5 : ℚ) + 7 ≤ 30 ∧
    (1 : ℤ) ≤ 40 ∧ (1 : ℤ) ≤ 60 ∧
    (0 ≤ (clampExtractRect ⟨3, 5, 10, 7, "", "", ""⟩ 2 40 60).left ∧
     0 ≤ (clampExtractRect ⟨3, 5, 10, 7, "", "", ""⟩ 2 40 60).top ∧
     (clampExtractRect ⟨3, 5, 10, 7, "", "", ""⟩ 2 40 60).left +
       (clampExtractRect ⟨3, 5, 10, 7, "", "", ""⟩ 2 40 60).width ≤ 40 ∧
     (clampExtractRect ⟨3, 5, 10, 7, "", "", ""⟩ 2 40 60).top +
       (clampExtractRect ⟨3, 5, 10, 7, "", "", ""⟩ 2 40 60).height ≤ 60) :=
  ⟨by norm_num, by norm_num, by norm_num, by norm_num, by norm_num, by norm_num, by norm_num,
   clampExtractRect_within_source ⟨3, 5, 10, 7, "", "", ""⟩ 2 40 60 20 30
     (by norm_num) (by norm_num) (by norm_num) (by norm_num) (by norm_num)
     (by norm_num) (by norm_num)⟩

lemma resolveApiKey_nonempty (env : Env) (raw : String)
    (h : normalizeAccountId raw ≠ "") :
    resolveApiKey env raw =
      match envTruthy env (accountEnvKey (normalizeAccountId raw)) with
      | none => .error (missingAccountKeyMsg (normalizeAccountId raw)
          (accountEnvKey (normalizeAccountId raw)))
      | some key => .ok ⟨normalizeAccountId raw, key,
          accountEnvKey (normalizeAccountId raw)⟩ := by
  simp only [resolveApiKey]
  rw [if_pos h]

lemma resolveApiKey_empty (env : Env) (raw : String)
    (h : normalizeAccountId raw = "") :
    resolveApiKey env raw =
      match envTruthy env "KLAVIYO_API_KEY" with
      | some key => .ok ⟨"default", key, "KLAVIYO_API_KEY"⟩
      | none =>
        match envTruthy env "KLAVIYO_PRIVATE_KEY" with
        | some key => .ok ⟨"default", key, "KLAVIYO_PRIVATE_KEY"⟩
        | none =>
          match readConfiguredAccounts env with
          | [] => .error noKeyFoundMsg
          | first :: _ =>
            match envTruthy env (accountEnvKey first) with
            | some key => .ok ⟨first, key, accountEnvKey first⟩
            | none => .error noKeyFoundMsg := by
  simp only [resolveApiKey]
  rw [if_neg (fun hne => hne h)]

/-- **C3**: credential resolution selects exactly one credential with the
stated precedence: a non-empty normalized identifier requires its exact
binding or fails naming the expected binding key; an empty one falls back to
the default credential, else to the first configured account binding, else
fails. -/
theorem resolveApiKey_selects_unique_credential (env : Env) (raw : String) :
    (normalizeAccountId raw ≠ "" →
      (∀ k, envTruthy env (accountEnvKey (normalizeAccountId raw)) = some k →
        resolveApiKey env raw =
          .ok ⟨normalizeAccountId raw, k, accountEnvKey (normalizeAccountId raw)⟩) ∧
      (envTruthy env (accountEnvKey (normalizeAccountId raw)) = none →
        resolveApiKey env raw =
          .error (missingAccountKeyMsg (normalizeAccountId raw)
            (accountEnvKey (normalizeAccountId raw))))) ∧
    (normalizeAccountId raw = "" →
      (∀ k, envTruthy env "KLAVIYO_API_KEY" = some k →
        resolveApiKey env raw = .ok ⟨"default", k, "KLAVIYO_API_KEY"⟩) ∧
      (envTruthy env "KLAVIYO_API_KEY" = none →
        (∀ k, envTruthy env "KLAVIYO_PRIVATE_KEY" = some k →
          resolveApiKey env raw = .ok ⟨"default", k, "KLAVIYO_PRIVATE_KEY"⟩) ∧
        (envTruthy env "KLAVIYO_PRIVATE_KEY" = none →
          (∀ first rest, readConfiguredAccounts env = first :: rest →
            (∀ k, envTruthy env (accountEnvKey first) = some k →
              resolveApiKey env raw = .ok ⟨first, k, accountEnvKey first⟩) ∧
            (envTruthy env (accountEnvKey first) = none →
              resolveApiKey env raw = .error noKeyFoundMsg)) ∧
          (readConfiguredAccounts env = [] →
            resolveApiKey env raw = .error noKeyFoundMsg)))) := by
  refine ⟨fun h => ⟨fun k hk => ?_, fun hk => ?_⟩,
    fun h => ⟨fun k hk => ?_, fun hk => ⟨fun k hk2 => ?_, fun hk2 =>
      ⟨fun first rest hc => ⟨fun k hk3 => ?_, fun hk3 => ?_⟩, fun hc => ?_⟩⟩⟩⟩
  · rw [resolveApiKey_nonempty env raw h, hk]
  · rw [resolveApiKey_nonempty env raw h, hk]
  · rw [resolveApiKey_empty env raw h, hk]
  · rw [resolveApiKey_empty env raw h]
    simp only [hk, hk2]
  · rw [resolveApiKey_empty env raw h]
    simp only [hk, hk2, hc, hk3]
  · rw [resolveApiKey_empty env raw h]
    simp only [hk, hk2, hc, hk3]
  · rw [resolveApiKey_empty env raw h]
    simp only [hk, hk2, hc]

/-- Witness for C3 at a concrete environment and account id. -/
theorem resolveApiKey_selects_unique_credential_witness :
    normalizeAccountId "AcmeCorp" ≠ "" ∧
    envTruthy demoEnv (accountEnvKey (normalizeAccountId "AcmeCorp")) = some "sk-demo" ∧
    resolveApiKey demoEnv "AcmeCorp" =
      .ok ⟨normalizeAccountId "AcmeCorp", "sk-demo",
        accountEnvKey (normalizeAccountId "AcmeCorp")⟩ :=
  ⟨by decide, by decide,
   ((resolveApiKey_selects_unique_credential demoEnv "AcmeCorp").1
     (by decide)).1 "sk-demo" (by decide)⟩

/-- **C2** counterexample: normalizing `"ACME Corp!"` yields `"acmecorp"`,
not `"acme-corp"` as the claim states (the space is removed, not turned into
a hyphen). -/
theorem normalizeAccountId_acme_not_hyphenated :
    normalizeAccountId "ACME Corp!" = "acmecorp" ∧
    normalizeAccountId "ACME Corp!" ≠ "acme-corp" := by decide

/-- **C2** amended: normalization of `"ACME Corp!"` produces `"acmecorp"`,
which is matched against exactly that configured binding key; in general,
normalization lowercases the raw identifier and removes characters outside
`[a-z0-9_-]`. -/
theorem normalizeAccountId_spec (env : Env) (raw : String) :
    normalizeAccountId "ACME Corp!" = "acmecorp" ∧
    (∀ k, envTruthy env (accountEnvKey "acmecorp") = some k →
      resolveApiKey env "ACME Corp!" = .ok ⟨"acmecorp", k, accountEnvKey "acmecorp"⟩) ∧
    (∀ c ∈ (normalizeAccountId raw).toList,
      ('a' ≤ c ∧ c ≤ 'z') ∨ ('0' ≤ c ∧ c ≤ '9') ∨ c = '_' ∨ c = '-') := by
  refine ⟨by decide, fun k hk => ?_, fun c hc => ?_⟩
  · have hnorm : normalizeAccountId "ACME Corp!" = "acmecorp" := by decide
    have h1 := resolveApiKey_nonempty env "ACME Corp!" (by decide)
    rw [hnorm] at h1
    rw [h1, hk]
  · have hfc : isAccountChar c := by
      have : c ∈ ((jsTrim raw.toList).map Char.toLower).filter isAccountChar := hc
      exact (List.mem_filter.mp this).2
    simp only [isAccountChar, Bool.or_eq_true, Bool.and_eq_true,
      decide_eq_true_eq, beq_iff_eq] at hfc
    tauto

/-- Witness for the amended C2 at a concrete environment. -/
theorem normalizeAccountId_spec_witness :
    envTruthy demoEnv (accountEnvKey "acmecorp") = some "sk-demo" ∧
    resolveApiKey demoEnv "ACME Corp!" =
      .ok ⟨"acmecorp", "sk-demo", accountEnvKey "acmecorp"⟩ :=
  ⟨by decide, (normalizeAccountId_spec demoEnv "ACME Corp!").2.1 "sk-demo" (by decide)⟩

lemma compressLoop_encodes_le (f : ℤ → ℕ) (t : ℕ) (m : ℤ) :
    ∀ (fuel : ℕ) (q : ℤ) (best c : ℕ),
      (compressLoop f t m fuel q best c).encodes ≤ c + ((q - m).toNat + 4) / 5 := by
  intro fuel
  induction fuel with
  | zero => intro q best c; simp [compressLoop]
  | succ n ih =>
    intro q best c
    simp only [compressLoop]
    split
    · rename_i h
      calc (compressLoop f t m n (q - 5) (f (q - 5)) (c + 1)).encodes
          ≤ (c + 1) + ((q - 5 - m).toNat + 4) / 5 := ih _ _ _
        _ ≤ c + ((q - m).toNat + 4) / 5 := by omega
    · show c ≤ c + ((q - m).toNat + 4) / 5
      omega

lemma compressLoop_stops (f : ℤ → ℕ) (t : ℕ) (m : ℤ) :
    ∀ (fuel : ℕ) (q : ℤ) (best c : ℕ), (q - m).toNat < fuel →
      ¬(t < (compressLoop f t m fuel q best c).best ∧
        m < (compressLoop f t m fuel q best c).quality) := by
  intro fuel
  induction fuel with
  | zero => intro q best c h; exact absurd h (Nat.not_lt_zero _)
  | succ n ih =>
    intro q best c hfuel
    simp only [compressLoop]
    split
    · rename_i h
      exact ih _ _ _ (by omega)
    · rename_i h
      exact h

/-- **C6** amended: for every opaque input (the lossy path), the adaptive
quality search terminates, and when the gap between the configured default
quality and the configured floor is a multiple of the 5-point step (as with
the shipped defaults 80 and 60) it performs at most
`(defaultQuality - floorQuality) / 5 + 1` encodes; the loop lowers quality
by exactly 5 per iteration and stops as soon as the encoded size is at or
under the byte target or quality is no longer above the floor. -/
theorem compressSlice_quality_search_bounded (encSize : ℤ → ℕ) (targetBytes : ℕ)
    (minQuality defaultQuality : ℤ)
    (hmd : minQuality ≤ defaultQuality)
    (hdvd : (5 : ℤ) ∣ defaultQuality - minQuality) :
    ((compressSliceSearch encSize targetBytes minQuality defaultQuality).encodes : ℤ) ≤
      (defaultQuality - minQuality) / 5 + 1 ∧
    ¬(targetBytes < (compressSliceSearch encSize targetBytes minQuality defaultQuality).best ∧
      minQuality <
        (compressSliceSearch encSize targetBytes minQuality defaultQuality).quality) := by
  constructor
  · have h := compressLoop_encodes_le encSize targetBytes minQuality
      ((defaultQuality - minQuality).toNat + 1) defaultQuality (encSize defaultQuality) 1
    simp only [compressSliceSearch]
    omega
  · exact compressLoop_stops encSize targetBytes minQuality _ _ _ _ (by omega)

/-- **C6** counterexample: with a configured default quality of 82 and floor
of 60 (both are environment-configurable) and an encoder that never meets the
byte target, the search performs 6 encodes, exceeding the claimed bound
`(82 - 60) / 5 + 1`. -/
theorem compressSearch_bound_counterexample :
    (compressSliceSearch (fun _ => 1000) 0 60 82).encodes = 6 ∧
    ¬ (((compressSliceSearch (fun _ => 1000) 0 60 82).encodes : ℤ) ≤
        ((82 : ℤ) - 60) / 5 + 1) := by
  constructor
  · decide
  · decide

/-- Witness for C6 at the shipped default configuration (default quality 80,
floor 60, 250 KB target) and a concrete encoder. -/
theorem compressSlice_quality_search_bounded_witness :
    (60 : ℤ) ≤ 80 ∧ (5 : ℤ) ∣ (80 : ℤ) - 60 ∧
    (((compressSliceSearch demoEncSize 256000 60 80).encodes : ℤ) ≤
        ((80 : ℤ) - 60) / 5 + 1 ∧
      ¬(256000 < (compressSliceSearch demoEncSize 256000 60 80).best ∧
        (60 : ℤ) < (compressSliceSearch demoEncSize 256000 60 80).quality)) :=
  ⟨by norm_num, by norm_num,
   compressSlice_quality_search_bounded demoEncSize 256000 60 80
     (by norm_num) (by norm_num)⟩

lemma clampQ_eq_self {n lo hi : ℚ} (h1 : lo ≤ n) (h2 : n ≤ hi) : clampQ n lo hi = n := by
  simp only [clampQ]
  rw [min_eq_right h2, max_eq_right h1]

lemma safeUrl_idem (u : String) : safeUrl (safeUrl u) = safeUrl u := by
  by_cases h : isHttpUrl u
  · simp [safeUrl, h]
  · simp [safeUrl, h]

lemma autoSliceGo_ne_nil {lw : ℚ} {sm : ℤ} (hsm : 1 ≤ sm) {fuel : ℕ} {y stop : ℚ}
    (hy : y < stop) (hfuel : 0 < fuel) :
    autoSliceGo lw sm fuel y stop ≠ [] := by
  cases fuel with
  | zero => exact absurd hfuel (lt_irrefl 0)
  | succ n =>
    have hsm0 : (0 : ℚ) < (sm : ℤ) := by exact_mod_cast Int.lt_of_lt_of_le zero_lt_one hsm
    have hpos : ¬ (min ((sm : ℤ) : ℚ) (stop - y) ≤ 0) := by
      push_neg
      exact lt_min hsm0 (by linarith)
    simp only [autoSliceGo]
    rw [if_pos hy, if_neg hpos]
    simp

/-- **C8**: when the clamped header and footer bands leave an empty or
inverted body region, the slice-construction stage fails with the dedicated
error before any slice is attempted; and in no case does it succeed with an
empty slice list. -/
theorem slicePlan_empty_body_fails
    (logicalWidth logicalHeight headerHeight footerHeight maxSliceHeight : ℚ)
    (manualSlices : List (Option ManualEntry)) :
    (bodyBottomOf logicalHeight footerHeight ≤ bodyTopOf logicalHeight headerHeight →
      slicePlan logicalWidth logicalHeight headerHeight footerHeight maxSliceHeight
        manualSlices = .error invalidBodyMsg) ∧
    (∀ slices,
      slicePlan logicalWidth logicalHeight headerHeight footerHeight maxSliceHeight
        manualSlices = .ok slices → slices ≠ []) := by
  constructor
  · intro h
    simp only [slicePlan]
    rw [if_pos h]
  · intro slices hok
    simp only [slicePlan] at hok
    by_cases hbody : bodyBottomOf logicalHeight footerHeight ≤
        bodyTopOf logicalHeight headerHeight
    · rw [if_pos hbody] at hok
      exact absurd hok (by simp)
    · rw [if_neg hbody] at hok
      by_cases hm : manualSlices.length ≠ 0
      · rw [if_pos hm] at hok
        by_cases hempty : (normalizeManualRectSlices logicalWidth logicalHeight
            (bodyTopOf logicalHeight headerHeight)
            (bodyBottomOf logicalHeight footerHeight) manualSlices).length = 0
        · rw [if_pos hempty] at hok
          exact absurd hok (by simp)
        · rw [if_neg hempty] at hok
          have : normalizeManualRectSlices logicalWidth logicalHeight
              (bodyTopOf logicalHeight headerHeight)
              (bodyBottomOf logicalHeight footerHeight) manualSlices = slices := by
            exact Except.ok.inj hok
          intro hnil
          rw [hnil] at this
          exact hempty (by rw [this]; rfl)
      · rw [if_neg hm] at hok
        have hslices : buildAutoVerticalSlices logicalWidth
            (bodyTopOf logicalHeight headerHeight)
            (bodyBottomOf logicalHeight footerHeight) maxSliceHeight = slices :=
          Except.ok.inj hok
        intro hnil
        rw [hnil] at hslices
        have hlt : bodyTopOf logicalHeight headerHeight <
            bodyBottomOf logicalHeight footerHeight := lt_of_not_le hbody
        have hsm : (1 : ℤ) ≤ max 200 (round (if maxSliceHeight = 0 then (1200 : ℚ)
            else maxSliceHeight)) := le_trans (by norm_num) (le_max_left _ _)
        exact autoSliceGo_ne_nil hsm hlt (Nat.succ_pos _) hslices

/-- Witness for C8 at a concrete input where header and footer consume the
whole frame. -/
theorem slicePlan_empty_body_fails_witness :
    bodyBottomOf 100 100 ≤ bodyTopOf 100 100 ∧
    slicePlan 900 100 100 100 1200 [] = .error invalidBodyMsg :=
  ⟨by norm_num [bodyBottomOf, bodyTopOf, clampQ, min_def, max_def],
   (slicePlan_empty_body_fails 900 100 100 100 1200 []).1
     (by norm_num [bodyBottomOf, bodyTopOf, clampQ, min_def, max_def])⟩

lemma normalizeManualEntry_invalid (logicalWidth bodyTop bodyBottom : ℚ)
    (entry : Option ManualEntry) (h : entryHasRect entry = false) :
    normalizeManualEntry logicalWidth bodyTop bodyBottom entry = none := by
  match entry with
  | none => rfl
  | some s =>
    match hr : s.rect with
    | none => simp only [normalizeManualEntry, hr]
    | some r =>
      exfalso
      simp [entryHasRect, hr] at h

/-- **C10**: the manual-slice normalizer silently skips every entry that is
null/undefined or lacks a `rect` field (the output is unchanged when such
entries are removed beforehand), and — given a valid body region — the
manual path of the slice-construction stage fails exactly when the resulting
output sequence is empty, succeeding with the normalized list otherwise. -/
theorem normalizeManualRectSlices_skips_invalid_entries
    (logicalWidth logicalHeight headerHeight footerHeight maxSliceHeight : ℚ)
    (xs manualSlices : List (Option ManualEntry)) :
    (normalizeManualRectSlices logicalWidth logicalHeight
        (bodyTopOf logicalHeight headerHeight) (bodyBottomOf logicalHeight footerHeight)
        xs =
      normalizeManualRectSlices logicalWidth logicalHeight
        (bodyTopOf logicalHeight headerHeight) (bodyBottomOf logicalHeight footerHeight)
        (xs.filter entryHasRect)) ∧
    (manualSlices.length ≠ 0 →
      bodyTopOf logicalHeight headerHeight < bodyBottomOf logicalHeight footerHeight →
      ((slicePlan logicalWidth logicalHeight headerHeight footerHeight maxSliceHeight
          manualSlices = .error noValidManualMsg ↔
        normalizeManualRectSlices logicalWidth logicalHeight
          (bodyTopOf logicalHeight headerHeight)
          (bodyBottomOf logicalHeight footerHeight) manualSlices = []) ∧
       (normalizeManualRectSlices logicalWidth logicalHeight
          (bodyTopOf logicalHeight headerHeight)
          (bodyBottomOf logicalHeight footerHeight) manualSlices ≠ [] →
        slicePlan logicalWidth logicalHeight headerHeight footerHeight maxSliceHeight
          manualSlices = .ok (normalizeManualRectSlices logicalWidth logicalHeight
            (bodyTopOf logicalHeight headerHeight)
            (bodyBottomOf logicalHeight footerHeight) manualSlices)))) := by
  constructor
  · induction xs with
    | nil => rfl
    | cons a t ih =>
      by_cases ha : entryHasRect a
      · simp only [normalizeManualRectSlices, List.filter_cons, ha, if_pos trivial,
          List.filterMap_cons]
        simp only [normalizeManualRectSlices] at ih
        cases normalizeManualEntry logicalWidth (bodyTopOf logicalHeight headerHeight)
            (bodyBottomOf logicalHeight footerHeight) a <;> simp [ih]
      · have ha' : entryHasRect a = false := by simpa using ha
        simp only [normalizeManualRectSlices, List.filter_cons, ha', List.filterMap_cons,
          normalizeManualEntry_invalid _ _ _ a ha']
        simp only [normalizeManualRectSlices] at ih
        simpa using ih
  · intro hm hbody
    have hb : ¬ (bodyBottomOf logicalHeight footerHeight ≤
        bodyTopOf logicalHeight headerHeight) := not_le.mpr hbody
    constructor
    · constructor
      · intro herr
        simp only [slicePlan] at herr
        rw [if_neg hb, if_pos hm] at herr
        by_cases hempty : (normalizeManualRectSlices logicalWidth logicalHeight
            (bodyTopOf logicalHeight headerHeight)
            (bodyBottomOf logicalHeight footerHeight) manualSlices).length = 0
        · exact List.length_eq_zero.mp hempty
        · rw [if_neg hempty] at herr
          exact absurd herr (by simp)
      · intro hnil
        simp only [slicePlan]
        rw [if_neg hb, if_pos hm, if_pos (by rw [hnil]; rfl)]
    · intro hne
      simp only [slicePlan]
      rw [if_neg hb, if_pos hm,
        if_neg (fun h => hne (List.length_eq_zero.mp h))]

/-- Witness for C10: two invalid entries (a null entry and one without a
rect) are skipped, leaving an empty output, and the request fails with the
dedicated manual-slices error. -/
theorem normalizeManualRectSlices_skips_invalid_entries_witness :
    ([none, some ⟨none, "u", "l", "a"⟩] : List (Option ManualEntry)).length ≠ 0 ∧
    bodyTopOf 200 0 < bodyBottomOf 200 0 ∧
    slicePlan 100 200 0 0 1200 [none, some ⟨none, "u", "l", "a"⟩] =
      .error noValidManualMsg :=
  ⟨by simp,
   by norm_num [bodyTopOf, bodyBottomOf, clampQ, min_def, max_def],
   (((normalizeManualRectSlices_skips_invalid_entries 100 200 0 0 1200 []
       [none, some ⟨none, "u", "l", "a"⟩]).2 (by simp)
     (by norm_num [bodyTopOf, bodyBottomOf, clampQ, min_def, max_def])).1).mpr rfl⟩

lemma normalizeManualEntry_in_bounds (logicalWidth bodyTop bodyBottom : ℚ)
    (x y w h : ℤ) (u lab al : String)
    (hx : 0 ≤ x) (hw : 2 ≤ w) (hh2 : 2 ≤ h)
    (hxw : (x : ℚ) + (w : ℚ) ≤ logicalWidth)
    (hyt : bodyTop ≤ (y : ℚ)) (hyb : (y : ℚ) + (h : ℚ) ≤ bodyBottom) :
    normalizeManualEntry logicalWidth bodyTop bodyBottom
      (some ⟨some ⟨(x : ℚ), (y : ℚ), (w : ℚ), (h : ℚ)⟩, u, lab, al⟩) =
      some ⟨(x : ℚ), (y : ℚ), (w : ℚ), (h : ℚ), safeUrl u, lab, al⟩ := by
  have hxQ : (0 : ℚ) ≤ (x : ℚ) := by exact_mod_cast hx
  have hwQ : (2 : ℚ) ≤ (w : ℚ) := by exact_mod_cast hw
  have hhQ : (2 : ℚ) ≤ (h : ℚ) := by exact_mod_cast hh2
  have hcx : clampQ ((x : ℚ)) 0 (max 0 (logicalWidth - 1)) = (x : ℚ) :=
    clampQ_eq_self hxQ (le_max_of_le_right (by linarith))
  have hcy : clampQ ((y : ℚ)) bodyTop (max bodyTop (bodyBottom - 1)) = (y : ℚ) :=
    clampQ_eq_self hyt (le_max_of_le_right (by linarith))
  have hcw : clampQ ((w : ℚ)) 1 (max 1 (logicalWidth - (x : ℚ))) = (w : ℚ) :=
    clampQ_eq_self (by linarith) (le_max_of_le_right (by linarith))
  have hch : clampQ ((h : ℚ)) 1 (max 1 (bodyBottom - (y : ℚ))) = (h : ℚ) :=
    clampQ_eq_self (by linarith) (le_max_of_le_right (by linarith))
  simp only [normalizeManualEntry, round_intCast, hcx, hcy, hcw, hch]
  rw [if_neg (by push_neg; exact ⟨by linarith, by linarith⟩)]

/-- **C7**: manual slice normalization is idempotent on already-in-bounds,
integer rectangles with width and height at least 2: normalizing such a
rectangle and re-normalizing the result yields the same outcome as
normalizing it once. -/
theorem normalizeManualRectSlices_idempotent
    (logicalWidth logicalHeight bodyTop bodyBottom : ℚ)
    (x y w h : ℤ) (u lab al : String)
    (hx : 0 ≤ x) (hw : 2 ≤ w) (hh2 : 2 ≤ h)
    (hxw : (x : ℚ) + (w : ℚ) ≤ logicalWidth)
    (hyt : bodyTop ≤ (y : ℚ)) (hyb : (y : ℚ) + (h : ℚ) ≤ bodyBottom) :
    normalizeManualRectSlices logicalWidth logicalHeight bodyTop bodyBottom
      ((normalizeManualRectSlices logicalWidth logicalHeight bodyTop bodyBottom
        [some ⟨some ⟨(x : ℚ), (y : ℚ), (w : ℚ), (h : ℚ)⟩, u, lab, al⟩]).map rewrapSlice) =
    normalizeManualRectSlices logicalWidth logicalHeight bodyTop bodyBottom
      [some ⟨some ⟨(x : ℚ), (y : ℚ), (w : ℚ), (h : ℚ)⟩, u, lab, al⟩] := by
  have h1 := normalizeManualEntry_in_bounds logicalWidth bodyTop bodyBottom
    x y w h u lab al hx hw hh2 hxw hyt hyb
  have h2 := normalizeManualEntry_in_bounds logicalWidth bodyTop bodyBottom
    x y w h (safeUrl u) lab al hx hw hh2 hxw hyt hyb
  simp only [normalizeManualRectSlices, List.filterMap_cons, List.filterMap_nil, h1,
    List.map_cons, List.map_nil, rewrapSlice, h2, safeUrl_idem]

/-- Witness for C7 at a concrete in-bounds integer rectangle. -/
theorem normalizeManualRectSlices_idempotent_witness :
    (0 : ℤ) ≤ 5 ∧ (2 : ℤ) ≤ 10 ∧ (2 : ℤ) ≤ 20 ∧
    ((5 : ℤ) : ℚ) + ((10 : ℤ) : ℚ) ≤ 100 ∧ (0 : ℚ) ≤ ((30 : ℤ) : ℚ) ∧
    ((30 : ℤ) : ℚ) + ((20 : ℤ) : ℚ) ≤ 200 ∧
    normalizeManualRectSlices 100 200 0 200
      ((normalizeManualRectSlices 100 200 0 200
        [some ⟨some ⟨((5 : ℤ) : ℚ), ((30 : ℤ) : ℚ), ((10 : ℤ) : ℚ), ((20 : ℤ) : ℚ)⟩,
          "https://example.com/x", "lbl", "alt"⟩]).map rewrapSlice) =
    normalizeManualRectSlices 100 200 0 200
      [some ⟨some ⟨((5 : ℤ) : ℚ), ((30 : ℤ) : ℚ), ((10 : ℤ) : ℚ), ((20 : ℤ) : ℚ)⟩,
        "https://example.com/x", "lbl", "alt"⟩] :=
  ⟨by norm_num, by norm_num, by norm_num, by norm_num, by norm_num, by norm_num,
   normalizeManualRectSlices_idempotent 100 200 0 200 5 30 10 20
     "https://example.com/x" "lbl" "alt"
     (by norm_num) (by norm_num) (by norm_num) (by norm_num) (by norm_num) (by norm_num)⟩

lemma processSlicesFrom_append (step : ℕ → ServerSlice → Except String SliceMeta)
    (l1 : List ServerSlice) :
    ∀ (i : ℕ) (l2 : List ServerSlice),
      processSlicesFrom step i (l1 ++ l2) =
        match processSlicesFrom step i l1 with
        | .error e => .error e
        | .ok r1 =>
          match processSlicesFrom step (i + l1.length) l2 with
          | .error e => .error e
          | .ok r2 => .ok (r1 ++ r2) := by
  induction l1 with
  | nil =>
    intro i l2
    simp only [List.nil_append, processSlicesFrom, List.length_nil, Nat.add_zero]
    cases processSlicesFrom step i l2 <;> simp
  | cons a t ih =>
    intro i l2
    simp only [List.cons_append, processSlicesFrom]
    have harith : i + 1 + t.length = i + (a :: t).length := by
      simp only [List.length_cons]
      omega
    cases hstep : step i a with
    | error e => rfl
    | ok meta =>
      dsimp only [List.append_eq]
      rw [ih (i + 1) l2, harith]
      cases processSlicesFrom step (i + 1) t with
      | error e => rfl
      | ok r1 =>
        cases processSlicesFrom step (i + (a :: t).length) l2 <;> rfl

lemma processSlicesFrom_ok_length (step : ℕ → ServerSlice → Except String SliceMeta) :
    ∀ (l : List ServerSlice) (i : ℕ) (res : List (ServerSlice × SliceMeta)),
      processSlicesFrom step i l = .ok res → res.length = l.length := by
  intro l
  induction l with
  | nil =>
    intro i res h
    simp only [processSlicesFrom] at h
    rw [← Except.ok.inj h]
    rfl
  | cons a t ih =>
    intro i res h
    simp only [processSlicesFrom] at h
    cases hstep : step i a with
    | error e => rw [hstep] at h; exact absurd h (by simp)
    | ok meta =>
      rw [hstep] at h
      cases htail : processSlicesFrom step (i + 1) t with
      | error e => rw [htail] at h; exact absurd h (by simp)
      | ok tail =>
        rw [htail] at h
        rw [← Except.ok.inj h]
        simp [ih (i + 1) tail htail]

/-- **C4**: in the upload loop, a failure of any single slice's processing
step (extraction, compression, or upload) aborts the whole batch: when every
slice before position `pre.length` succeeds and the slice there fails with
error `e`, the whole invocation returns exactly `error e`; and a successful
invocation always returns one result per slice (no partial list is ever
produced). -/
theorem processSlices_first_failure_aborts
    (step : ℕ → ServerSlice → Except String SliceMeta)
    (pre : List ServerSlice) (s : ServerSlice) (post : List ServerSlice)
    (rs : List (ServerSlice × SliceMeta)) (e : String)
    (hpre : processSlicesFrom step 0 pre = .ok rs)
    (hfail : step pre.length s = .error e) :
    processSlices step (pre ++ s :: post) = .error e ∧
    (∀ slices res, processSlices step slices = .ok res → res.length = slices.length) := by
  constructor
  · simp only [processSlices]
    rw [processSlicesFrom_append step pre 0 (s :: post), hpre]
    simp only [Nat.zero_add, processSlicesFrom]
    rw [hfail]
  · intro slices res h
    exact processSlicesFrom_ok_length step slices 0 res h

/-- Witness for C4: with a step that succeeds on the first slice and fails
on the second, the two-slice batch returns the second slice's error. -/
theorem processSlices_first_failure_aborts_witness :
    processSlicesFrom demoStep 0 [demoSlice] = .ok [(demoSlice, demoMeta)] ∧
    demoStep ([demoSlice] : List ServerSlice).length demoSlice =
      .error "Image upload failed: boom" ∧
    processSlices demoStep ([demoSlice] ++ demoSlice :: []) =
      .error "Image upload failed: boom" :=
  ⟨rfl, rfl,
   (processSlices_first_failure_aborts demoStep [demoSlice] demoSlice []
     [(demoSlice, demoMeta)] "Image upload failed: boom" rfl rfl).1⟩

lemma tileGoI_eq_nil_of_le {maxH : ℤ} {fuel : ℕ} {y stop : ℤ} (h : stop ≤ y) :
    tileGoI maxH fuel y stop = [] := by
  cases fuel with
  | zero => rfl
  | succ n =>
    simp only [tileGoI]
    rw [if_neg (not_lt.mpr h)]

lemma tileGoI_countP {maxH : ℤ} (hm : 1 ≤ maxH) :
    ∀ (fuel : ℕ) (y stop : ℤ), (stop - y).toNat ≤ fuel → ∀ r : ℤ,
      (tileGoI maxH fuel y stop).countP (fun i => decide (i.start ≤ r ∧ r < i.stop)) =
        if y ≤ r ∧ r < stop then 1 else 0 := by
  intro fuel
  induction fuel with
  | zero =>
    intro y stop hfuel r
    have hys : stop ≤ y := by omega
    rw [tileGoI_eq_nil_of_le hys, List.countP_nil, if_neg (by omega)]
  | succ n ih =>
    intro y stop hfuel r
    by_cases hy : y < stop
    · simp only [tileGoI]
      rw [if_pos hy, if_neg (show ¬ (min maxH (stop - y) ≤ 0) by omega)]
      rw [List.countP_cons,
        ih (y + min maxH (stop - y)) stop (by omega) r]
      simp only [decide_eq_true_eq]
      split_ifs <;> omega
    · rw [tileGoI_eq_nil_of_le (not_lt.mp hy), List.countP_nil, if_neg (by omega)]

lemma tileGoI_bounds {maxH : ℤ} (hm : 1 ≤ maxH) :
    ∀ (fuel : ℕ) (y stop : ℤ), ∀ i ∈ tileGoI maxH fuel y stop,
      y ≤ i.start ∧ i.start < i.stop ∧ i.stop ≤ stop := by
  intro fuel
  induction fuel with
  | zero => intro y stop i hi; exact absurd hi (by simp [tileGoI])
  | succ n ih =>
    intro y stop i hi
    by_cases hy : y < stop
    · simp only [tileGoI] at hi
      rw [if_pos hy, if_neg (show ¬ (min maxH (stop - y) ≤ 0) by omega)] at hi
      rcases List.mem_cons.mp hi with heq | htail
      · subst heq
        constructor
        · exact le_refl _
        constructor
        · simp only []
          omega
        · simp only []
          omega
      · have := ih (y + min maxH (stop - y)) stop i htail
        refine ⟨by omega, this.2.1, this.2.2⟩
    · rw [tileGoI_eq_nil_of_le (not_lt.mp hy)] at hi
      exact absurd hi (List.not_mem_nil i)

lemma tileGoI_height_le {maxH : ℤ} :
    ∀ (fuel : ℕ) (y stop : ℤ), ∀ i ∈ tileGoI maxH fuel y stop,
      i.stop - i.start ≤ maxH := by
  intro fuel
  induction fuel with
  | zero => intro y stop i hi; exact absurd hi (by simp [tileGoI])
  | succ n ih =>
    intro y stop i hi
    by_cases hy : y < stop
    · simp only [tileGoI] at hi
      rw [if_pos hy] at hi
      by_cases hguard : min maxH (stop - y) ≤ 0
      · rw [if_pos hguard] at hi
        exact absurd hi (List.not_mem_nil i)
      · rw [if_neg hguard] at hi
        rcases List.mem_cons.mp hi with heq | htail
        · subst heq
          simp only []
          omega
        · exact ih (y + min maxH (stop - y)) stop i htail
    · rw [tileGoI_eq_nil_of_le (not_lt.mp hy)] at hi
      exact absurd hi (List.not_mem_nil i)

lemma tileGoI_pairwise {maxH : ℤ} (hm : 1 ≤ maxH) :
    ∀ (fuel : ℕ) (y stop : ℤ),
      List.Pairwise (fun a b => a.stop ≤ b.start) (tileGoI maxH fuel y stop) := by
  intro fuel
  induction fuel with
  | zero => intro y stop; simp [tileGoI]
  | succ n ih =>
    intro y stop
    by_cases hy : y < stop
    · simp only [tileGoI]
      rw [if_pos hy]
      by_cases hguard : min maxH (stop - y) ≤ 0
      · rw [if_pos hguard]
        exact List.Pairwise.nil
      · rw [if_neg hguard]
        refine List.Pairwise.cons ?_ (ih (y + min maxH (stop - y)) stop)
        intro b hb
        exact (tileGoI_bounds hm n (y + min maxH (stop - y)) stop b hb).1
    · rw [tileGoI_eq_nil_of_le (not_lt.mp hy)]
      exact List.Pairwise.nil

lemma tileGoI_dropLast_height {maxH : ℤ} (hm : 1 ≤ maxH) :
    ∀ (fuel : ℕ) (y stop : ℤ), (stop - y).toNat ≤ fuel →
      ∀ i ∈ (tileGoI maxH fuel y stop).dropLast, i.stop - i.start = maxH := by
  intro fuel
  induction fuel with
  | zero =>
    intro y stop hfuel i hi
    rw [tileGoI_eq_nil_of_le (by omega)] at hi
    exact absurd hi (by simp)
  | succ n ih =>
    intro y stop hfuel i hi
    by_cases hy : y < stop
    · simp only [tileGoI] at hi
      rw [if_pos hy, if_neg (show ¬ (min maxH (stop - y) ≤ 0) by omega)] at hi
      rcases hrest : tileGoI maxH n (y + min maxH (stop - y)) stop with _ | ⟨r1, rs⟩
      · rw [hrest] at hi
        exact absurd hi (by simp)
      · rw [hrest, List.dropLast_cons₂] at hi
        rcases List.mem_cons.mp hi with heq | htail
        · subst heq
          have hne : y + min maxH (stop - y) < stop := by
            by_contra hge
            rw [tileGoI_eq_nil_of_le (not_lt.mp hge)] at hrest
            exact List.cons_ne_nil r1 rs hrest.symm
          simp only []
          omega
        · rw [← hrest] at htail
          exact ih (y + min maxH (stop - y)) stop (by omega) i htail
    · rw [tileGoI_eq_nil_of_le (not_lt.mp hy)] at hi
      exact absurd hi (by simp)

lemma autoSliceGo_eq_nil_of_le {lw : ℚ} {sm : ℤ} {fuel : ℕ} {y stop : ℚ}
    (h : stop ≤ y) : autoSliceGo lw sm fuel y stop = [] := by
  cases fuel with
  | zero => rfl
  | succ n =>
    simp only [autoSliceGo]
    rw [if_neg (not_lt.mpr h)]

lemma autoSliceGo_countP {lw : ℚ} {sm : ℤ} (hsm : 1 ≤ sm) :
    ∀ (fuel : ℕ) (y stop : ℚ), (⌈stop - y⌉).toNat < fuel → ∀ r : ℚ,
      (autoSliceGo lw sm fuel y stop).countP
          (fun s => decide (s.y ≤ r ∧ r < s.y + s.height)) =
        if y ≤ r ∧ r < stop then 1 else 0 := by
  intro fuel
  induction fuel with
  | zero =>
    intro y stop hfuel r
    exact absurd hfuel (Nat.not_lt_zero _)
  | succ n ih =>
    intro y stop hfuel r
    by_cases hy : y < stop
    · have hsmQ : (0 : ℚ) < ((sm : ℤ) : ℚ) := by
        have : (0 : ℤ) < sm := by omega
        exact_mod_cast this
      have hpos : ¬ (min ((sm : ℤ) : ℚ) (stop - y) ≤ 0) := by
        push_neg
        exact lt_min hsmQ (by linarith)
      have hmin_le : min ((sm : ℤ) : ℚ) (stop - y) ≤ stop - y := min_le_right _ _
      have hmin_pos : 0 < min ((sm : ℤ) : ℚ) (stop - y) := not_le.mp hpos
      have hceil_pos : 0 < ⌈stop - y⌉ := Int.ceil_pos.mpr (by linarith)
      have hfuel2 : (⌈stop - (y + min ((sm : ℤ) : ℚ) (stop - y))⌉).toNat < n := by
        rcases min_cases ((sm : ℤ) : ℚ) (stop - y) with ⟨hEq, hle⟩ | ⟨hEq, hlt⟩
        · rw [hEq]
          have : stop - (y + ((sm : ℤ) : ℚ)) = (stop - y) - ((sm : ℤ) : ℚ) := by ring
          rw [this, Int.ceil_sub_int]
          omega
        · rw [hEq]
          have : stop - (y + (stop - y)) = 0 := by ring
          rw [this]
          simp only [Int.ceil_zero]
          omega
      simp only [autoSliceGo]
      rw [if_pos hy, if_neg hpos, List.countP_cons, ih _ stop hfuel2 r]
      simp only [decide_eq_true_eq]
      have hyh_le : y + min ((sm : ℤ) : ℚ) (stop - y) ≤ stop := by linarith
      by_cases hyr : y ≤ r
      · by_cases hrs : r < stop
        · by_cases hrh : r < y + min ((sm : ℤ) : ℚ) (stop - y)
          · rw [if_neg (fun hc => absurd hrh (not_lt.mpr hc.1)), if_pos ⟨hyr, hrh⟩,
              if_pos ⟨hyr, hrs⟩]
          · rw [if_pos ⟨not_lt.mp hrh, hrs⟩, if_neg (fun hc => hrh hc.2),
              if_pos ⟨hyr, hrs⟩]
        · rw [if_neg (fun hc => hrs hc.2),
            if_neg (fun hc => hrs (lt_of_lt_of_le hc.2 hyh_le)),
            if_neg (fun hc => hrs hc.2)]
      · rw [if_neg (fun hc => hyr (le_trans (by linarith) hc.1)),
          if_neg (fun hc => hyr hc.1), if_neg (fun hc => hyr hc.1)]
    · rw [autoSliceGo_eq_nil_of_le (not_lt.mp hy), List.countP_nil,
        if_neg (fun hc => hy (lt_of_le_of_lt hc.1 hc.2))]

lemma autoSliceGo_height_le {lw : ℚ} {sm : ℤ} :
    ∀ (fuel : ℕ) (y stop : ℚ), ∀ s ∈ autoSliceGo lw sm fuel y stop,
      s.height ≤ ((sm : ℤ) : ℚ) := by
  intro fuel
  induction fuel with
  | zero => intro y stop s hs; exact absurd hs (by simp [autoSliceGo])
  | succ n ih =>
    intro y stop s hs
    by_cases hy : y < stop
    · simp only [autoSliceGo] at hs
      rw [if_pos hy] at hs
      by_cases hguard : min ((sm : ℤ) : ℚ) (stop - y) ≤ 0
      · rw [if_pos hguard] at hs
        exact absurd hs (List.not_mem_nil s)
      · rw [if_neg hguard] at hs
        rcases List.mem_cons.mp hs with heq | htail
        · subst heq
          exact min_le_left _ _
        · exact ih _ stop s htail
    · rw [autoSliceGo_eq_nil_of_le (not_lt.mp hy)] at hs
      exact absurd hs (List.not_mem_nil s)

lemma mergeAux_preserves (gap lo hi : ℤ) :
    ∀ (rest : List Ival) (cur : Ival),
      (lo ≤ cur.start ∧ cur.start < cur.stop ∧ cur.stop ≤ hi) →
      (∀ i ∈ rest, lo ≤ i.start ∧ i.start < i.stop ∧ i.stop ≤ hi) →
      ∀ b ∈ mergeAux gap cur rest, lo ≤ b.start ∧ b.start < b.stop ∧ b.stop ≤ hi := by
  intro rest
  induction rest with
  | nil =>
    intro cur hcur _ b hb
    simp only [mergeAux, List.mem_singleton] at hb
    exact hb ▸ hcur
  | cons i t ih =>
    intro cur hcur hrest b hb
    have hii : lo ≤ i.start ∧ i.start < i.stop ∧ i.stop ≤ hi := hrest i (by simp)
    have ht : ∀ j ∈ t, lo ≤ j.start ∧ j.start < j.stop ∧ j.stop ≤ hi :=
      fun j hj => hrest j (List.mem_cons_of_mem i hj)
    simp only [mergeAux] at hb
    split at hb
    · refine ih ⟨cur.start, max cur.stop i.stop⟩ ?_ ht b hb
      refine ⟨hcur.1, lt_of_lt_of_le hcur.2.1 (le_max_left _ _), ?_⟩
      exact max_le hcur.2.2 hii.2.2
    · rcases List.mem_cons.mp hb with heq | hmem
      · exact heq ▸ hcur
      · exact ih i hii ht b hmem

lemma mergeAux_start_ge (gap : ℤ) :
    ∀ (rest : List Ival) (cur : Ival),
      List.Pairwise (fun a b => a.start ≤ b.start) rest →
      (∀ i ∈ rest, cur.start ≤ i.start) →
      ∀ b ∈ mergeAux gap cur rest, cur.start ≤ b.start := by
  intro rest
  induction rest with
  | nil =>
    intro cur _ _ b hb
    simp only [mergeAux, List.mem_singleton] at hb
    exact hb ▸ le_refl _
  | cons i t ih =>
    intro cur hsorted hcur b hb
    have hit : ∀ j ∈ t, i.start ≤ j.start := fun j hj => List.rel_of_pairwise_cons hsorted hj
    have ht : List.Pairwise (fun a b => a.start ≤ b.start) t := hsorted.of_cons
    simp only [mergeAux] at hb
    split at hb
    · exact ih ⟨cur.start, max cur.stop i.stop⟩ ht
        (fun j hj => le_trans (hcur i (by simp)) (hit j hj)) b hb
    · rcases List.mem_cons.mp hb with heq | hmem
      · exact heq ▸ le_refl _
      · exact le_trans (hcur i (by simp)) (ih i ht hit b hmem)

lemma mergeAux_pairwise (gap : ℤ) :
    ∀ (rest : List Ival) (cur : Ival),
      List.Pairwise (fun a b => a.start ≤ b.start) rest →
      (∀ i ∈ rest, cur.start ≤ i.start) →
      List.Pairwise (fun a b => a.stop + gap < b.start) (mergeAux gap cur rest) := by
  intro rest
  induction rest with
  | nil =>
    intro cur _ _
    simp [mergeAux]
  | cons i t ih =>
    intro cur hsorted hcur
    have hit : ∀ j ∈ t, i.start ≤ j.start := fun j hj => List.rel_of_pairwise_cons hsorted hj
    have ht : List.Pairwise (fun a b => a.start ≤ b.start) t := hsorted.of_cons
    simp only [mergeAux]
    split
    · exact ih ⟨cur.start, max cur.stop i.stop⟩ ht
        (fun j hj => le_trans (hcur i (by simp)) (hit j hj))
    · rename_i hgap
      refine List.Pairwise.cons ?_ (ih i ht hit)
      intro b hb
      have hib : i.start ≤ b.start := mergeAux_start_ge gap t i ht hit b hb
      omega

lemma mergeIntervals_preserves {intervals : List Ival} {gap lo hi : ℤ}
    (h : ∀ i ∈ intervals, lo ≤ i.start ∧ i.start < i.stop ∧ i.stop ≤ hi) :
    ∀ b ∈ mergeIntervals intervals gap,
      lo ≤ b.start ∧ b.start < b.stop ∧ b.stop ≤ hi := by
  intro b hb
  simp only [mergeIntervals] at hb
  have hmem : ∀ i ∈ List.insertionSort (fun a b => a.start ≤ b.start) intervals,
      lo ≤ i.start ∧ i.start < i.stop ∧ i.stop ≤ hi :=
    fun i hi => h i ((List.mem_insertionSort _).mp hi)
  cases hsort : List.insertionSort (fun a b => a.start ≤ b.start) intervals with
  | nil => rw [hsort] at hb; exact absurd hb (by simp)
  | cons first rest =>
    rw [hsort] at hb hmem
    exact mergeAux_preserves gap lo hi rest first (hmem first (by simp))
      (fun j hj => hmem j (List.mem_cons_of_mem first hj)) b hb

lemma mergeIntervals_pairwise (intervals : List Ival) (gap : ℤ) :
    List.Pairwise (fun a b => a.stop + gap < b.start) (mergeIntervals intervals gap) := by
  simp only [mergeIntervals]
  have hsorted := List.sorted_insertionSort (fun a b : Ival => a.start ≤ b.start) intervals
  cases hsort : List.insertionSort (fun a b => a.start ≤ b.start) intervals with
  | nil => simp
  | cons first rest =>
    rw [hsort] at hsorted
    exact mergeAux_pairwise gap rest first hsorted.of_cons
      (fun i hi => List.rel_of_pairwise_cons hsorted hi)

lemma tileGoI_ne_nil {maxH : ℤ} (hm : 1 ≤ maxH) {fuel : ℕ} {y stop : ℤ}
    (hy : y < stop) (hfuel : 0 < fuel) : tileGoI maxH fuel y stop ≠ [] := by
  cases fuel with
  | zero => exact absurd hfuel (lt_irrefl 0)
  | succ n =>
    simp only [tileGoI]
    rw [if_pos hy, if_neg (show ¬ (min maxH (stop - y) ≤ 0) by omega)]
    simp

lemma pairwise_sep_countP_le_one (l : List SuggestSlice)
    (hp : List.Pairwise (fun a b => a.rect.y + a.rect.height ≤ b.rect.y) l) (r : ℤ) :
    l.countP (fun s => decide (s.rect.y ≤ r ∧ r < s.rect.y + s.rect.height)) ≤ 1 := by
  induction l with
  | nil => simp
  | cons a t ih =>
    rw [List.countP_cons]
    by_cases ha : a.rect.y ≤ r ∧ r < a.rect.y + a.rect.height
    · have hzero : t.countP (fun s => decide (s.rect.y ≤ r ∧ r < s.rect.y + s.rect.height)) = 0 := by
        rw [List.countP_eq_zero]
        intro b hb
        have := List.rel_of_pairwise_cons hp hb
        simp only [decide_eq_true_eq]
        omega
      rw [hzero]
      simp [ha]
    · have := ih hp.of_cons
      simp only [decide_eq_true_eq, if_neg ha]
      omega

lemma childInterval_bounds {fy : ℚ} {bodyTop bodyBottom minSection minWidth : ℤ}
    (hbody : bodyTop ≤ bodyBottom) (hms : 1 ≤ minSection) {child : FigmaChild} {i : Ival}
    (h : childInterval fy bodyTop bodyBottom minSection minWidth child = some i) :
    bodyTop ≤ i.start ∧ i.start < i.stop ∧ i.stop ≤ bodyBottom := by
  simp only [childInterval] at h
  split at h
  · exact absurd h (by simp)
  · split at h
    · exact absurd h (by simp)
    · rename_i b
      split at h
      · exact absurd h (by simp)
      · split at h
        · exact absurd h (by simp)
        · split at h
          · exact absurd h (by simp)
          · rename_i hshort
            have hi := Option.some.inj h
            subst hi
            simp only [clampI] at hshort ⊢
            omega

lemma assembleSlices_props (frameWidth bodyTop bodyBottom maxSliceHeight joinGap : ℤ)
    (intervals : List Ival)
    (hm : 1 ≤ maxSliceHeight) (hgap : 0 ≤ joinGap) (hbody : bodyTop < bodyBottom)
    (hiv : ∀ i ∈ intervals, bodyTop ≤ i.start ∧ i.start < i.stop ∧ i.stop ≤ bodyBottom) :
    assembleSlices frameWidth bodyTop bodyBottom maxSliceHeight joinGap intervals ≠ [] ∧
    (∀ s ∈ assembleSlices frameWidth bodyTop bodyBottom maxSliceHeight joinGap intervals,
      bodyTop ≤ s.rect.y ∧ s.rect.y + s.rect.height ≤ bodyBottom ∧ 0 < s.rect.height) ∧
    (∀ r : ℤ, (assembleSlices frameWidth bodyTop bodyBottom maxSliceHeight joinGap
        intervals).countP
        (fun s => decide (s.rect.y ≤ r ∧ r < s.rect.y + s.rect.height)) ≤ 1) := by
  have hmerged_bounds := @mergeIntervals_preserves intervals joinGap bodyTop bodyBottom hiv
  have hmerged_pw := mergeIntervals_pairwise intervals joinGap
  simp only [assembleSlices]
  set slices := (mergeIntervals intervals joinGap).flatMap (fun m =>
    (splitByMaxHeight m maxSliceHeight).filterMap (fun c =>
      if c.stop - c.start < 8 then none
      else some (⟨⟨0, c.start, frameWidth, c.stop - c.start⟩, "", "", ""⟩ : SuggestSlice)))
    with hslices
  have hchunk_mem : ∀ s ∈ slices, ∃ m ∈ mergeIntervals intervals joinGap,
      ∃ c ∈ splitByMaxHeight m maxSliceHeight, ¬ (c.stop - c.start < 8) ∧
        s = ⟨⟨0, c.start, frameWidth, c.stop - c.start⟩, "", "", ""⟩ := by
    intro s hs
    rw [hslices] at hs
    rcases List.mem_flatMap.mp hs with ⟨m, hmmem, hsm⟩
    rcases List.mem_filterMap.mp hsm with ⟨c, hcmem, hcf⟩
    refine ⟨m, hmmem, c, hcmem, ?_⟩
    by_cases hlt : c.stop - c.start < 8
    · rw [if_pos hlt] at hcf
      exact absurd hcf (by simp)
    · rw [if_neg hlt] at hcf
      exact ⟨hlt, (Option.some.inj hcf).symm⟩
  have hslice_bounds : ∀ s ∈ slices,
      bodyTop ≤ s.rect.y ∧ s.rect.y + s.rect.height ≤ bodyBottom ∧ 0 < s.rect.height := by
    intro s hs
    rcases hchunk_mem s hs with ⟨m, hmmem, c, hcmem, h8, hseq⟩
    have hmb := hmerged_bounds m hmmem
    have hcb := tileGoI_bounds hm _ m.start m.stop c hcmem
    subst hseq
    simp only []
    omega
  have hslices_pw : List.Pairwise (fun a b => a.rect.y + a.rect.height ≤ b.rect.y) slices := by
    rw [hslices, List.pairwise_flatMap]
    constructor
    · intro m hmmem
      have hpw := tileGoI_pairwise hm ((m.stop - m.start).toNat) m.start m.stop
      refine List.Pairwise.filterMap _ ?_ hpw
      intro a a' hrel s1 hs1 s2 hs2
      split at hs1
      · exact absurd hs1 (by simp)
      · split at hs2
        · exact absurd hs2 (by simp)
        · rw [← Option.some.inj hs1, ← Option.some.inj hs2]
          simp only []
          omega
    · refine hmerged_pw.imp ?_
      intro m1 m2 hsep s1 hs1 s2 hs2
      rcases List.mem_filterMap.mp hs1 with ⟨c1, hc1, hf1⟩
      rcases List.mem_filterMap.mp hs2 with ⟨c2, hc2, hf2⟩
      have hb1 := tileGoI_bounds hm _ m1.start m1.stop c1 hc1
      have hb2 := tileGoI_bounds hm _ m2.start m2.stop c2 hc2
      split at hf1
      · exact absurd hf1 (by simp)
      · split at hf2
        · exact absurd hf2 (by simp)
        · rw [← Option.some.inj hf1, ← Option.some.inj hf2]
          simp only []
          omega
  by_cases hempty : slices.isEmpty
  · rw [if_pos hempty]
    set tiles := tileGoI maxSliceHeight (bodyBottom - bodyTop).toNat bodyTop bodyBottom
      with htiles
    have htn : tiles ≠ [] := by
      rw [htiles]
      exact tileGoI_ne_nil hm hbody (by omega)
    refine ⟨by simpa using htn, ?_, ?_⟩
    · intro s hs
      rcases List.mem_map.mp hs with ⟨c, hcmem, hseq⟩
      have hcb := tileGoI_bounds hm _ bodyTop bodyBottom c hcmem
      subst hseq
      simp only []
      omega
    · intro r
      rw [List.countP_map]
      have hcong : ∀ c ∈ tiles,
          (((fun s : SuggestSlice => decide (s.rect.y ≤ r ∧ r < s.rect.y + s.rect.height)) ∘
            (fun c : Ival => (⟨⟨0, c.start, frameWidth, c.stop - c.start⟩, "", "", ""⟩ :
              SuggestSlice))) c = true ↔
          (fun i : Ival => decide (i.start ≤ r ∧ r < i.stop)) c = true) := by
        intro c _
        simp only [Function.comp, decide_eq_true_eq]
        constructor <;> (intro hc; exact ⟨hc.1, by omega⟩)
      rw [List.countP_congr hcong]
      rw [htiles, tileGoI_countP hm _ bodyTop bodyBottom (le_refl _) r]
      split <;> omega
  · rw [if_neg hempty]
    refine ⟨fun hnil => hempty (by rw [hnil]; rfl), hslice_bounds, ?_⟩
    intro r
    exact pairwise_sep_countP_le_one slices hslices_pw r

/-- **C1** amended: for every frame whose body region is non-empty, the
Auto-Slice Suggester returns at least one rectangle; every returned
rectangle lies within `[bodyTop, bodyBottom)` with positive height and the
rectangles are non-overlapping (every pixel row belongs to at most one); the
server's automatic tiling `buildAutoVerticalSlices` additionally covers the
body exactly (every pixel row belongs to exactly one rectangle). The
original claim's exact-cover property fails for the child-driven suggester
(see the counterexample), because only child-derived merged intervals are
covered. -/
theorem suggestSlices_cover_props (frameNode : FrameNode) (opts : SuggestOpts) (fy : ℚ)
    (hb : frameNode.boundsY = some fy)
    (hbody : suggestBodyTop (round frameNode.height) opts <
             suggestBodyBottom (round frameNode.height) opts) :
    (suggestSlices frameNode opts ≠ [] ∧
     (∀ s ∈ suggestSlices frameNode opts,
       suggestBodyTop (round frameNode.height) opts ≤ s.rect.y ∧
       s.rect.y + s.rect.height ≤ suggestBodyBottom (round frameNode.height) opts ∧
       0 < s.rect.height) ∧
     (∀ r : ℤ, (suggestSlices frameNode opts).countP
        (fun s => decide (s.rect.y ≤ r ∧ r < s.rect.y + s.rect.height)) ≤ 1)) ∧
    (∀ (lw bt bb msh : ℚ), bt < bb →
      (buildAutoVerticalSlices lw bt bb msh ≠ [] ∧
       ∀ r : ℚ, (buildAutoVerticalSlices lw bt bb msh).countP
          (fun s => decide (s.y ≤ r ∧ r < s.y + s.height)) =
          if bt ≤ r ∧ r < bb then 1 else 0)) := by
  constructor
  · simp only [suggestSlices, hb]
    rw [if_neg (not_le.mpr hbody)]
    set fh := round frameNode.height with hfh
    set bodyTop := suggestBodyTop fh opts with hbt
    set bodyBottom := suggestBodyBottom fh opts with hbb
    set msec := max 40 (round ((fh : ℚ) * (3 / 100))) with hmsec
    set mwid := max 120 (round (((round frameNode.width : ℤ) : ℚ) * (55 / 100))) with hmwid
    set jgap := max 12 (round ((fh : ℚ) * (1 / 100))) with hjgap
    set ivs0 := frameNode.children.filterMap
      (childInterval fy bodyTop bodyBottom msec mwid) with hivs0
    have hiv : ∀ i ∈ (if ivs0.isEmpty then [(⟨bodyTop, bodyBottom⟩ : Ival)] else ivs0),
        bodyTop ≤ i.start ∧ i.start < i.stop ∧ i.stop ≤ bodyBottom := by
      by_cases he : ivs0.isEmpty
      · rw [if_pos he]
        intro i hi
        rcases List.mem_singleton.mp hi with rfl
        exact ⟨le_refl _, hbody, le_refl _⟩
      · rw [if_neg he]
        intro i hi
        rw [hivs0] at hi
        rcases List.mem_filterMap.mp hi with ⟨child, _, hci⟩
        exact childInterval_bounds (le_of_lt hbody) (by omega) hci
    exact assembleSlices_props _ bodyTop bodyBottom _ jgap _ (by omega) (by omega) hbody hiv
  · intro lw bt bb msh hlt
    simp only [buildAutoVerticalSlices]
    have hsm : (1 : ℤ) ≤ max 200 (round (if msh = 0 then (1200 : ℚ) else msh)) := by omega
    constructor
    · exact autoSliceGo_ne_nil hsm hlt (Nat.succ_pos _)
    · intro r
      exact autoSliceGo_countP hsm _ bt bb (Nat.lt_succ_of_le (le_refl _)) r

/-- Witness for the amended C1 at a concrete childless 1000x1000 frame. -/
theorem suggestSlices_cover_props_witness :
    demoFrame.boundsY = some 0 ∧
    suggestBodyTop (round demoFrame.height) demoOpts <
      suggestBodyBottom (round demoFrame.height) demoOpts ∧
    ((suggestSlices demoFrame demoOpts ≠ [] ∧
      (∀ s ∈ suggestSlices demoFrame demoOpts,
        suggestBodyTop (round demoFrame.height) demoOpts ≤ s.rect.y ∧
        s.rect.y + s.rect.height ≤ suggestBodyBottom (round demoFrame.height) demoOpts ∧
        0 < s.rect.height) ∧
      (∀ r : ℤ, (suggestSlices demoFrame demoOpts).countP
         (fun s => decide (s.rect.y ≤ r ∧ r < s.rect.y + s.rect.height)) ≤ 1)) ∧
     (∀ (lw bt bb msh : ℚ), bt < bb →
       (buildAutoVerticalSlices lw bt bb msh ≠ [] ∧
        ∀ r : ℚ, (buildAutoVerticalSlices lw bt bb msh).countP
           (fun s => decide (s.y ≤ r ∧ r < s.y + s.height)) =
           if bt ≤ r ∧ r < bb then 1 else 0))) :=
  ⟨rfl,
   by norm_num [suggestBodyTop, suggestBodyBottom, demoFrame, demoOpts, toInt, clampI,
     min_def, max_def],
   suggestSlices_cover_props demoFrame demoOpts 0 rfl
     (by norm_num [suggestBodyTop, suggestBodyBottom, demoFrame, demoOpts, toInt, clampI,
       min_def, max_def])⟩

lemma assembleSlices_height_le (frameWidth bodyTop bodyBottom maxSliceHeight joinGap : ℤ)
    (intervals : List Ival) :
    ∀ s ∈ assembleSlices frameWidth bodyTop bodyBottom maxSliceHeight joinGap intervals,
      s.rect.height ≤ maxSliceHeight := by
  intro s hs
  simp only [assembleSlices] at hs
  split at hs
  · rcases List.mem_map.mp hs with ⟨c, hcmem, hseq⟩
    have := tileGoI_height_le _ bodyTop bodyBottom c hcmem
    subst hseq
    simpa using this
  · rcases List.mem_flatMap.mp hs with ⟨m, _, hsm⟩
    rcases List.mem_filterMap.mp hsm with ⟨c, hcmem, hcf⟩
    have := tileGoI_height_le _ m.start m.stop c hcmem
    split at hcf
    · exact absurd hcf (by simp)
    · rw [← Option.some.inj hcf]
      simpa using this

/-- **C9**: no rectangle returned by the suggester is taller than the
configured max-slice-height (floored at 200, defaulting to 1200 when the
option is missing), and no rectangle of the server's automatic tiling is
taller than its clamped maximum; within one merged interval every chunk
except possibly the last has exactly the maximum height (only the final
chunk may be shorter). -/
theorem suggestSlices_height_bounded (frameNode : FrameNode) (opts : SuggestOpts)
    (lw bt bb msh : ℚ) (interval : Ival) (maxH : ℤ) (hm : 1 ≤ maxH) :
    (∀ s ∈ suggestSlices frameNode opts,
      s.rect.height ≤ max 200 (toInt opts.maxSliceHeight 1200)) ∧
    (∀ s ∈ buildAutoVerticalSlices lw bt bb msh,
      s.height ≤ ((max 200 (round (if msh = 0 then (1200 : ℚ) else msh)) : ℤ) : ℚ)) ∧
    (∀ c ∈ (splitByMaxHeight interval maxH).dropLast, c.stop - c.start = maxH) ∧
    (∀ c ∈ splitByMaxHeight interval maxH, c.stop - c.start ≤ maxH) := by
  refine ⟨?_, ?_, ?_, ?_⟩
  · intro s hs
    simp only [suggestSlices] at hs
    cases hbY : frameNode.boundsY with
    | none => rw [hbY] at hs; exact absurd hs (by simp)
    | some fy =>
      rw [hbY] at hs
      simp only [] at hs
      split at hs
      · exact absurd hs (by simp)
      · exact assembleSlices_height_le _ _ _ _ _ _ s hs
  · intro s hs
    simp only [buildAutoVerticalSlices] at hs
    exact autoSliceGo_height_le _ bt bb s hs
  · exact tileGoI_dropLast_height hm _ interval.start interval.stop (le_refl _)
  · exact tileGoI_height_le _ interval.start interval.stop

/-- Witness for C9 at a concrete frame, tiling call, and interval. -/
theorem suggestSlices_height_bounded_witness :
    (1 : ℤ) ≤ 200 ∧
    ((∀ s ∈ suggestSlices demoFrame demoOpts,
       s.rect.height ≤ max 200 (toInt demoOpts.maxSliceHeight 1200)) ∧
     (∀ s ∈ buildAutoVerticalSlices 1000 0 1000 1200,
       s.height ≤ ((max 200 (round (if (1200 : ℚ) = 0 then (1200 : ℚ) else 1200)) : ℤ) : ℚ)) ∧
     (∀ c ∈ (splitByMaxHeight ⟨0, 500⟩ 200).dropLast, c.stop - c.start = 200) ∧
     (∀ c ∈ splitByMaxHeight ⟨0, 500⟩ 200, c.stop - c.start ≤ 200)) :=
  ⟨by norm_num,
   suggestSlices_height_bounded demoFrame demoOpts 1000 0 1000 1200 ⟨0, 500⟩ 200
     (by norm_num)⟩

/-- **C1** counterexample: on a 1000x1000 frame with an empty header and
footer (body region `[0, 1000)`) and a single qualifying child spanning rows
200-500, the suggester returns exactly one rectangle covering `[200, 500)`,
so pixel row 0 of the non-empty body region belongs to no returned rectangle
— the union of the returned spans does not cover the body region. -/
theorem suggestSlices_exact_cover_counterexample :
    suggestBodyTop (round demoChildFrame.height) demoOpts = 0 ∧
    suggestBodyBottom (round demoChildFrame.height) demoOpts = 1000 ∧
    suggestSlices demoChildFrame demoOpts =
      [⟨⟨0, 200, 1000, 300⟩, "", "", ""⟩] ∧
    (suggestSlices demoChildFrame demoOpts).countP
      (fun s => decide (s.rect.y ≤ (0 : ℤ) ∧ (0 : ℤ) < s.rect.y + s.rect.height)) = 0 := by
  have hround1000 : round ((1000 : ℚ)) = (1000 : ℤ) := by norm_num
  have hbt : suggestBodyTop 1000 demoOpts = 0 := by
    norm_num [suggestBodyTop, demoOpts, toInt, clampI, min_def, max_def]
  have hbb : suggestBodyBottom 1000 demoOpts = 1000 := by
    norm_num [suggestBodyBottom, demoOpts, toInt, clampI, min_def, max_def]
  have hmain : suggestSlices demoChildFrame demoOpts =
      [⟨⟨0, 200, 1000, 300⟩, "", "", ""⟩] := by
    have h1 : max 40 (round ((((1000 : ℤ) : ℚ)) * (3 / 100))) = 40 := by
      norm_num [round_eq]
    have h2 : max 120 (round ((((1000 : ℤ) : ℚ)) * (55 / 100))) = 550 := by
      norm_num [round_eq]
    have h3 : max 12 (round ((((1000 : ℤ) : ℚ)) * (1 / 100))) = 12 := by
      norm_num [round_eq]
    have hchild : childInterval 0 0 1000 40 550 ⟨true, some ⟨200, 600, 300⟩⟩ =
        some ⟨200, 500⟩ := by
      simp only [childInterval]
      norm_num [clampI, min_def, max_def]
    simp only [suggestSlices, demoChildFrame]
    rw [hround1000, hbt, hbb]
    rw [if_neg (by norm_num)]
    rw [h1, h2, h3]
    rw [List.filterMap_cons, hchild]
    simp only [List.filterMap_nil]
    decide
  refine ⟨?_, ?_, hmain, ?_⟩
  · show suggestBodyTop (round ((1000 : ℚ))) demoOpts = 0
    rw [hround1000]
    exact hbt
  · show suggestBodyBottom (round ((1000 : ℚ))) demoOpts = 1000
    rw [hround1000]
    exact hbb
  · rw [hmain]
    decide

end EmailDevTool
